import Mathlib

/-!
Shallow embedding of the Adobe Acrobat accessibility module
(source/NVDAObjects/IAccessible/adobeAcrobat.py): the structure-tag
role classifier `normalizeStdName` and the MathML reconstruction
(`getMathMLAttributes`, `_getNodeMathMl`, `_get_mathMl`), together with
theorems settling the specification claims about them.
-/

namespace AdobeAcrobat

/-- Semantic roles used by this module (the subset of `controlTypes.Role`
that `stdNamesToRoles` and `normalizeStdName` mention). -/
inductive Role where
  | SECTION
  | BLOCKQUOTE
  | CAPTION
  | LIST
  | LISTITEM
  | LABEL
  | PARAGRAPH
  | HEADING
  | MATH
  deriving DecidableEq, Repr

/-- The fixed table `stdNamesToRoles` from the source, as an association
list in the order the Python dict literal lists its entries. -/
def stdNamesToRoles : List (String × Role) :=
  [("Sect", Role.SECTION),
   ("Div", Role.SECTION),
   ("BlockQuote", Role.BLOCKQUOTE),
   ("Caption", Role.CAPTION),
   ("L", Role.LIST),
   ("LI", Role.LISTITEM),
   ("Lbl", Role.LABEL),
   ("P", Role.PARAGRAPH),
   ("H", Role.HEADING),
   ("Formula", Role.MATH)]

/-- Lexicographic less-or-equal on character lists by code point; this is
the comparison Python performs for `str <= str`. -/
def lexLE : List Char → List Char → Bool
  | [], _ => true
  | _ :: _, [] => false
  | a :: as, b :: bs => if a < b then true else if b < a then false else lexLE as bs

/-- Python string comparison `s <= t` (lexicographic by code point). -/
def strLE (s t : String) : Bool := lexLE s.data t.data

/-- The character at index 1 of a string, as a one-character string;
models the Python expression `stdName[1]`, which is only reached on
strings of length at least 2. -/
def charAt1 (s : String) : String :=
  match s.data with
  | _ :: c :: _ => String.singleton c
  | _ => ""

/-- Embedding of `normalizeStdName`: the `LookupError` raise is modelled
as `none`.  The guard `stdName and "H1" <= stdName <= "H6"` is Python
string truthiness plus chained lexicographic comparison. -/
def normalizeStdName (stdName : String) : Option (Role × Option String) :=
  if stdName ≠ "" ∧ strLE "H1" stdName = true ∧ strLE stdName "H6" = true then
    some (Role.HEADING, some (charAt1 stdName))
  else
    match stdNamesToRoles.lookup stdName with
    | some role => some (role, none)
    | none => none

/-- Definition following the spec wording for claim C3: the name matches
the pattern `H` followed by a single digit 1–6. -/
def specHPattern (s : String) : Bool :=
  match s.data with
  | [h, c] => h = 'H' ∧ '1' ≤ c ∧ c ≤ '6'
  | _ => false

/-- Embedding of an `IPDDomElement` node of the PDF DOM tree.  A child
entry is `none` when `GetChild`/`QueryInterface(IPDDomElement)` raises
`COMError` for that index (the code skips such children); attributes are
an association list keyed by (name, namespace), with absence modelled by
lookup failure. -/
inductive PDDomNode : Type where
  | mk (tag id value : String) (attrs : List ((String × String) × String))
       (children : List (Option PDDomNode))

/-- `GetTagName()` of a node. -/
def PDDomNode.tag : PDDomNode → String
  | .mk t _ _ _ _ => t

/-- `GetID()` of a node (empty string when absent). -/
def PDDomNode.id : PDDomNode → String
  | .mk _ i _ _ _ => i

/-- `GetValue()` of a node (empty string when absent). -/
def PDDomNode.value : PDDomNode → String
  | .mk _ _ v _ _ => v

/-- The attribute store of a node. -/
def PDDomNode.attrs : PDDomNode → List ((String × String) × String)
  | .mk _ _ _ a _ => a

/-- The child list of a node (`GetChildCount` / `GetChild i`). -/
def PDDomNode.children : PDDomNode → List (Option PDDomNode)
  | .mk _ _ _ _ cs => cs

/-- Attribute lookup in the store; an absent attribute reads as the empty
string, matching the falsy value the Python code tests with `if val:`. -/
def lookupAttr (attrs : List ((String × String) × String)) (name ns : String) : String :=
  match attrs.lookup (name, ns) with
  | some v => v
  | none => ""

/-- `GetAttribute(name, ns)` of a node. -/
def PDDomNode.GetAttribute (n : PDDomNode) (name ns : String) : String :=
  lookupAttr n.attrs name ns

/-- The per-tag attribute whitelist: exactly the `match tag` dispatch of
`_getNodeMathMl` (lines 146–174 of the source), with `[]` for the
default case. -/
def attributeWhitelist (tag : String) : List String :=
  match tag with
  | "mi" | "mn" | "mo" | "mtext" => ["mathvariant"]
  | "mfenced" => ["open", "close", "separators"]
  | "menclose" => ["notation", "notationtype"]
  | "annotation-xml" | "annotation" => ["encoding"]
  | "ms" => ["open", "close"]
  | "mspace" => ["width"]
  | "msgroup" => ["position", "shift"]
  | "msrow" => ["position"]
  | "msline" => ["position", "length"]
  | "mscarries" => ["position", "crossout"]
  | "mscarry" => ["crossout"]
  | "mstack" => ["align", "stackalign"]
  | "mlongdiv" => ["longdivstyle"]
  | _ => []

/-- Embedding of `AcrobatNode.getMathMLAttributes`: for each name in
`attrList`, read the attribute under namespace "NSO" and, when non-empty,
append ` name="value"`. -/
def getMathMLAttributes (node : PDDomNode) (attrList : List String) : String :=
  attrList.foldl
    (fun acc attr =>
      let val := node.GetAttribute attr "NSO"
      if val ≠ "" then acc ++ " " ++ attr ++ "=\"" ++ val ++ "\"" else acc)
    ""

mutual

/-- Embedding of `AcrobatNode._getNodeMathMl`: open tag, optional
`id="..."`, universal `intent`/`arg` attributes, the per-tag whitelist
attributes, then either the node value verbatim or the recursively
rendered children (skipping children that failed to resolve), and the
closing tag. -/
def getNodeMathMl : PDDomNode → String
  | .mk tag id value attrs children =>
    let node : PDDomNode := .mk tag id value attrs children
    let answer := "<" ++ tag
    let answer := if id ≠ "" then answer ++ " id=\"" ++ id ++ "\"" else answer
    let answer := answer ++ getMathMLAttributes node ["intent", "arg"]
    let answer := answer ++ getMathMLAttributes node (attributeWhitelist tag)
    let answer := answer ++ ">"
    let answer := if value ≠ "" then answer ++ value else answer ++ childrenMathMl children
    answer ++ "</" ++ tag ++ ">"

/-- The child loop of `_getNodeMathMl` (lines 180–186): children that
raise on `GetChild`/`QueryInterface` are skipped with `continue`. -/
def childrenMathMl : List (Option PDDomNode) → String
  | [] => ""
  | none :: rest => childrenMathMl rest
  | some c :: rest => getNodeMathMl c ++ childrenMathMl rest

end

/-- Attempts to strip a pattern from the front of a character list:
`some rest` when the pattern (first argument) is a prefix, else `none`. -/
def matchDrop : List Char → List Char → Option (List Char)
  | [], l => some l
  | _ :: _, [] => none
  | a :: ps, b :: l => if a = b then matchDrop ps l else none

/-- Replaces every occurrence of the non-empty pattern `old`, left to
right and non-overlapping, by `new`; the scan of Python `str.replace`.
The `fuel` argument only makes the recursion structural: each step
consumes at least one character, so any `fuel ≥ l.length` computes the
full replacement. -/
def replList (old new : List Char) : Nat → List Char → List Char
  | 0, l => l
  | _ + 1, [] => []
  | fuel + 1, c :: rest =>
    match matchDrop old (c :: rest) with
    | some rem => new ++ replList old new fuel rem
    | none => c :: replList old new fuel rest

/-- Embedding of Python `s.replace(old, new)` for the non-empty patterns
this module uses (an empty pattern never occurs in the source). -/
def strReplace (s old new : String) : String :=
  match old.data with
  | [] => s
  | _ :: _ => String.mk (replList old.data new.data s.data.length s.data)

/-- Embedding of Python `s.startswith(p)`: the pattern is a prefix of the
string. -/
def strStartsWith (s p : String) : Bool := (matchDrop p.data s.data).isSome

/-- Embedding of Python `html.escape` with its default `quote=True`:
replaces `&`, `<`, `>`, double quote and single quote, in that order.
`Char.ofNat 39` is the single-quote character. -/
def htmlEscape (s : String) : String :=
  let s := strReplace s "&" "&amp;"
  let s := strReplace s "<" "&lt;"
  let s := strReplace s ">" "&gt;"
  let s := strReplace s "\"" "&quot;"
  strReplace s (String.singleton (Char.ofNat 39)) "&#x27;"

/-- The literal namespace declaration that `_get_mathMl` strips from a
pre-rendered `<math` value. -/
def mathMlNamespaceDecl : String := "xmlns:mml=\"http://www.w3.org/1998/Math/MathML\""

/-- The tier-2 child scan of `_get_mathMl` (lines 205–216): walk the
children in index order, skip those that failed to resolve as elements,
and return the first whose tag name equals "math". -/
def findFirstMath : List (Option PDDomNode) → Option PDDomNode
  | [] => none
  | none :: rest => findFirstMath rest
  | some c :: rest => if c.tag = "math" then some c else findFirstMath rest

/-- The tier-3 fallback of `_get_mathMl` (lines 218–235): a value that
starts with "<math" is returned with the redundant namespace declaration
stripped; anything else is escaped and wrapped in `<math><mtext>`. -/
def fallbackValue (mathMl : String) : String :=
  if strStartsWith mathMl "<math" then strReplace mathMl mathMlNamespaceDecl ""
  else "<math><mtext>" ++ htmlEscape mathMl ++ "</mtext></math>"

/-- Embedding of `AcrobatNode._get_mathMl`: `none` models the
`LookupError` raised when `pdDomNode` is `None`; otherwise tier 1 (the
vendor attribute), tier 2 (the first "math"-tagged child, rendered by
`getNodeMathMl`; the Python `"".join(...)` over the string is the
identity), then tier 3 (`fallbackValue` on the raw value). -/
def getMathMl (pdDomNode : Option PDDomNode) : Option String :=
  match pdDomNode with
  | none => none
  | some node =>
    let math := node.GetAttribute "MSFT_MathML" "MSFT_Office"
    if math ≠ "" then some math
    else
      match findFirstMath node.children with
      | some child => some (getNodeMathMl child)
      | none => some (fallbackValue node.value)

/-- An emission event of `_getNodeMathMl`: an opening tag carrying its
emitted attributes as (name, value) pairs, a closing tag, or verbatim
text (a node value). -/
inductive MEmit where
  | openTag (tag : String) (attrs : List (String × String))
  | closeTag (tag : String)
  | text (s : String)
  deriving DecidableEq

/-- The attribute pairs `getMathMLAttributes` emits for `attrList`: the
names in list order, paired with their "NSO" values, keeping only the
non-empty ones. -/
def presentAttrs (node : PDDomNode) (attrList : List String) : List (String × String) :=
  (attrList.map (fun a => (a, node.GetAttribute a "NSO"))).filter (fun p => p.2 != "")

mutual

/-- The event trace of `getNodeMathMl`: same traversal, but recording
each opened tag with its attribute pairs, each text chunk, and each
closing tag, instead of concatenating strings. -/
def emitNode : PDDomNode → List MEmit
  | .mk tag id value attrs children =>
    let node : PDDomNode := .mk tag id value attrs children
    let idAttrs := if id ≠ "" then [("id", id)] else []
    let allAttrs := idAttrs ++ presentAttrs node ["intent", "arg"] ++
      presentAttrs node (attributeWhitelist tag)
    MEmit.openTag tag allAttrs ::
      ((if value ≠ "" then [MEmit.text value] else emitChildren children) ++
        [MEmit.closeTag tag])

/-- The event trace of `childrenMathMl`. -/
def emitChildren : List (Option PDDomNode) → List MEmit
  | [] => []
  | none :: rest => emitChildren rest
  | some c :: rest => emitNode c ++ emitChildren rest

end

/-- Renders a list of attribute pairs the way `getMathMLAttributes`
prints them. -/
def renderAttrList : List (String × String) → String
  | [] => ""
  | (a, v) :: rest => " " ++ a ++ "=\"" ++ v ++ "\"" ++ renderAttrList rest

/-- Renders one emission event to its output text. -/
def renderEmit : MEmit → String
  | .openTag t as => "<" ++ t ++ renderAttrList as ++ ">"
  | .closeTag t => "</" ++ t ++ ">"
  | .text s => s

/-- Renders an event list by concatenation. -/
def renderEmits : List MEmit → String
  | [] => ""
  | e :: rest => renderEmit e ++ renderEmits rest

/-- A tag event: just the opening/closing tag structure of a trace. -/
inductive TagEv where
  | op (t : String)
  | cl (t : String)
  deriving DecidableEq

/-- Projects an event trace to its tag events, dropping text. -/
def tagEvents : List MEmit → List TagEv
  | [] => []
  | MEmit.openTag t _ :: rest => TagEv.op t :: tagEvents rest
  | MEmit.closeTag t :: rest => TagEv.cl t :: tagEvents rest
  | MEmit.text _ :: rest => tagEvents rest

/-- Balanced tag sequences: every opened tag is matched by exactly one
closing tag with the same name, properly nested. -/
inductive Balanced : List TagEv → Prop where
  | nil : Balanced []
  | wrap (t : String) (l : List TagEv) : Balanced l →
      Balanced (TagEv.op t :: l ++ [TagEv.cl t])
  | append (l1 l2 : List TagEv) : Balanced l1 → Balanced l2 →
      Balanced (l1 ++ l2)

/-- The attribute policy asserted of an emission event: every attribute
pair of an opening tag has a non-empty value and a name that is `id`,
`intent`, `arg`, or whitelisted for that tag. -/
def attrOkEv : MEmit → Prop
  | MEmit.openTag t as => ∀ p ∈ as,
      p.2 ≠ "" ∧ (p.1 = "id" ∨ p.1 = "intent" ∨ p.1 = "arg" ∨ p.1 ∈ attributeWhitelist t)
  | _ => True

theorem renderAttrList_append (l1 l2 : List (String × String)) :
    renderAttrList (l1 ++ l2) = renderAttrList l1 ++ renderAttrList l2 := by
  induction l1 with
  | nil => simp [renderAttrList, String.empty_append]
  | cons p rest ih =>
    cases p with
    | mk a v => simp [renderAttrList, ih, String.append_assoc]

theorem renderEmits_append (l1 l2 : List MEmit) :
    renderEmits (l1 ++ l2) = renderEmits l1 ++ renderEmits l2 := by
  induction l1 with
  | nil => simp [renderEmits, String.empty_append]
  | cons e rest ih => simp [renderEmits, ih, String.append_assoc]

theorem getMathMLAttributes_eq_aux (node : PDDomNode) (l : List String) : ∀ init : String,
    l.foldl
      (fun acc attr =>
        let val := node.GetAttribute attr "NSO"
        if val ≠ "" then acc ++ " " ++ attr ++ "=\"" ++ val ++ "\"" else acc)
      init
    = init ++ renderAttrList (presentAttrs node l) := by
  induction l with
  | nil => intro init; simp [presentAttrs, renderAttrList, String.append_empty]
  | cons a rest ih =>
    intro init
    simp only [List.foldl_cons]
    by_cases h : node.GetAttribute a "NSO" = ""
    · rw [ih]
      simp [presentAttrs, renderAttrList, h]
    · rw [ih]
      simp [presentAttrs, renderAttrList, h, String.append_assoc]

theorem getMathMLAttributes_eq (node : PDDomNode) (l : List String) :
    getMathMLAttributes node l = renderAttrList (presentAttrs node l) := by
  rw [getMathMLAttributes, getMathMLAttributes_eq_aux, String.empty_append]

theorem idChunk (x : String) : " " ++ ("id" ++ ("=\"" ++ x)) = " id=\"" ++ x := by
  rw [← String.append_assoc, ← String.append_assoc]
  congr 1

mutual

theorem renderEmits_emitNode : ∀ (n : PDDomNode), renderEmits (emitNode n) = getNodeMathMl n
  | .mk tag id value attrs children => by
    have hch : renderEmits (emitChildren children) = childrenMathMl children :=
      renderEmits_emitChildren children
    simp only [emitNode, getNodeMathMl]
    by_cases hid : id ≠ "" <;> by_cases hv : value ≠ "" <;>
      simp [hid, hv, renderEmits, renderEmit, renderEmits_append, renderAttrList_append,
        renderAttrList, getMathMLAttributes_eq, hch, String.append_assoc,
        String.append_empty, String.empty_append, idChunk]

theorem renderEmits_emitChildren : ∀ (cs : List (Option PDDomNode)),
    renderEmits (emitChildren cs) = childrenMathMl cs
  | [] => by simp [emitChildren, childrenMathMl, renderEmits]
  | none :: rest => by
    simp only [emitChildren, childrenMathMl]
    exact renderEmits_emitChildren rest
  | some c :: rest => by
    simp only [emitChildren, childrenMathMl]
    rw [renderEmits_append, renderEmits_emitNode c, renderEmits_emitChildren rest]

end

theorem tagEvents_append (l1 l2 : List MEmit) :
    tagEvents (l1 ++ l2) = tagEvents l1 ++ tagEvents l2 := by
  induction l1 with
  | nil => simp [tagEvents]
  | cons e rest ih => cases e <;> simp [tagEvents, ih]

mutual

theorem balanced_emitNode : ∀ (n : PDDomNode), Balanced (tagEvents (emitNode n))
  | .mk tag id value attrs children => by
    have hch : Balanced (tagEvents (emitChildren children)) :=
      balanced_emitChildren children
    simp only [emitNode]
    by_cases hv : value ≠ ""
    · simp only [if_pos hv, tagEvents, tagEvents_append, List.nil_append]
      exact Balanced.wrap tag [] Balanced.nil
    · simp only [if_neg hv, tagEvents, tagEvents_append]
      exact Balanced.wrap tag _ hch

theorem balanced_emitChildren : ∀ (cs : List (Option PDDomNode)),
    Balanced (tagEvents (emitChildren cs))
  | [] => by simp only [emitChildren, tagEvents]; exact Balanced.nil
  | none :: rest => by
    simp only [emitChildren]
    exact balanced_emitChildren rest
  | some c :: rest => by
    simp only [emitChildren, tagEvents_append]
    exact Balanced.append _ _ (balanced_emitNode c) (balanced_emitChildren rest)

end

theorem presentAttrs_mem (node : PDDomNode) (l : List String) (p : String × String)
    (h : p ∈ presentAttrs node l) : p.1 ∈ l ∧ p.2 ≠ "" := by
  simp only [presentAttrs, List.mem_filter, List.mem_map] at h
  obtain ⟨⟨a, ha, rfl⟩, h2⟩ := h
  simp only [bne_iff_ne, ne_eq] at h2
  exact ⟨ha, h2⟩

mutual

theorem attrOk_emitNode : ∀ (n : PDDomNode), ∀ e ∈ emitNode n, attrOkEv e
  | .mk tag id value attrs children => by
    intro e he
    simp only [emitNode, List.mem_cons, List.mem_append, List.mem_singleton,
      List.not_mem_nil, or_false] at he
    rcases he with he | he
    · subst he
      intro p hp
      simp only [List.mem_append] at hp
      rcases hp with (hp | hp) | hp
      · by_cases hid : id ≠ ""
        · simp only [if_pos hid, List.mem_singleton] at hp
          subst hp
          exact ⟨hid, Or.inl rfl⟩
        · simp [if_neg hid] at hp
      · have := presentAttrs_mem _ _ _ hp
        rcases this with ⟨h1, h2⟩
        simp only [List.mem_cons, List.mem_singleton, List.not_mem_nil, or_false] at h1
        rcases h1 with h1 | h1
        · exact ⟨h2, Or.inr (Or.inl h1)⟩
        · exact ⟨h2, Or.inr (Or.inr (Or.inl h1))⟩
      · have := presentAttrs_mem _ _ _ hp
        exact ⟨this.2, Or.inr (Or.inr (Or.inr this.1))⟩
    · rcases he with he | he
      · by_cases hv : value ≠ ""
        · simp only [if_pos hv, List.mem_singleton] at he
          subst he
          trivial
        · simp only [if_neg hv] at he
          exact attrOk_emitChildren children e he
      · subst he
        trivial

theorem attrOk_emitChildren : ∀ (cs : List (Option PDDomNode)), ∀ e ∈ emitChildren cs, attrOkEv e
  | [] => by intro e he; simp [emitChildren] at he
  | none :: rest => by
    intro e he
    simp only [emitChildren] at he
    exact attrOk_emitChildren rest e he
  | some c :: rest => by
    intro e he
    simp only [emitChildren, List.mem_append] at he
    rcases he with he | he
    · exact attrOk_emitNode c e he
    · exact attrOk_emitChildren rest e he

end

theorem findFirstMath_none (cs : List (Option PDDomNode))
    (h : ∀ c : PDDomNode, some c ∈ cs → c.tag ≠ "math") : findFirstMath cs = none := by
  induction cs with
  | nil => rfl
  | cons x rest ih =>
    cases x with
    | none =>
      simp only [findFirstMath]
      exact ih fun c hc => h c (List.mem_cons_of_mem _ hc)
    | some c =>
      simp only [findFirstMath]
      rw [if_neg (h c (List.mem_cons_self _ _))]
      exact ih fun d hd => h d (List.mem_cons_of_mem _ hd)

theorem findFirstMath_first (pre post : List (Option PDDomNode)) (c : PDDomNode)
    (hc : c.tag = "math")
    (hpre : ∀ d : PDDomNode, some d ∈ pre → d.tag ≠ "math") :
    findFirstMath (pre ++ some c :: post) = some c := by
  induction pre with
  | nil => simp [findFirstMath, hc]
  | cons x rest ih =>
    cases x with
    | none =>
      simp only [List.cons_append, findFirstMath]
      exact ih fun d hd => hpre d (List.mem_cons_of_mem _ hd)
    | some d =>
      simp only [List.cons_append, findFirstMath]
      rw [if_neg (hpre d (List.mem_cons_self _ _))]
      exact ih fun e he => hpre e (List.mem_cons_of_mem _ he)

theorem getMathMl_tier3 (n : PDDomNode)
    (h1 : n.GetAttribute "MSFT_MathML" "MSFT_Office" = "")
    (h2 : ∀ c : PDDomNode, some c ∈ n.children → c.tag ≠ "math") :
    getMathMl (some n) = some (fallbackValue n.value) := by
  simp [getMathMl, h1, findFirstMath_none _ h2]

/-- C1: for every finite foreign element tree, including trees where some
children fail to resolve as elements, the string `_getNodeMathMl` returns
is the rendering of its emission trace, and that trace's tag events are
balanced: every opened XML element tag is matched by exactly one closing
tag with the same name, properly nested. -/
theorem c1_markup_balanced (n : PDDomNode) :
    renderEmits (emitNode n) = getNodeMathMl n ∧ Balanced (tagEvents (emitNode n)) :=
  ⟨renderEmits_emitNode n, balanced_emitNode n⟩

/-- C2 counterexample: `_getNodeMathMl` also emits the element identifier
as an `id="..."` attribute; on an `mi` node with id `x` the open tag
carries the attribute `id`, which is neither in the whitelist for `mi`
nor one of `intent`/`arg`, refuting the claim as stated. -/
theorem c2_counterexample :
    getNodeMathMl (.mk "mi" "x" "" [] []) = "<mi id=\"x\"></mi>" ∧
    MEmit.openTag "mi" [("id", "x")] ∈ emitNode (.mk "mi" "x" "" [] []) ∧
    ¬("id" = "intent" ∨ "id" = "arg" ∨ "id" ∈ attributeWhitelist "mi") := by
  refine ⟨by decide, by decide, by decide⟩

/-- C2 (amended): every attribute emitted by `_getNodeMathMl` has a
non-empty value, and its name is the element identifier attribute `id`,
one of the universal attributes `intent`/`arg`, or appears in the
whitelist for that element's tag name; absent or empty attributes are
omitted, never emitted as empty strings. -/
theorem c2_attribute_whitelist (n : PDDomNode) :
    renderEmits (emitNode n) = getNodeMathMl n ∧
    ∀ t as, MEmit.openTag t as ∈ emitNode n → ∀ p ∈ as,
      p.2 ≠ "" ∧ (p.1 = "id" ∨ p.1 = "intent" ∨ p.1 = "arg" ∨ p.1 ∈ attributeWhitelist t) :=
  ⟨renderEmits_emitNode n, fun _t as hmem p hp => attrOk_emitNode n (MEmit.openTag _t as) hmem p hp⟩

/-- C2 witness: an `mfenced` element with an `open` attribute but no
`close` attribute emits only `open="("`; the emitted pair has a
non-empty value and an allowed name. -/
theorem c2_attribute_whitelist_witness :
    getNodeMathMl (.mk "mfenced" "" "" [(("open", "NSO"), "(")] []) =
      "<mfenced open=\"(\"></mfenced>" ∧
    (("open", "(") : String × String).2 ≠ "" ∧
      ((("open", "(") : String × String).1 = "id" ∨ ("open", "(").1 = "intent" ∨
        ("open", "(").1 = "arg" ∨ ("open", "(").1 ∈ attributeWhitelist "mfenced") := by
  refine ⟨by decide, ?_⟩
  have h := (c2_attribute_whitelist (.mk "mfenced" "" "" [(("open", "NSO"), "(")] [])).2
    "mfenced" [("open", "(")] (by decide) ("open", "(") (by decide)
  tauto

/-- C3 counterexample: the code's first rule is the lexicographic range
check, which fires on `"H10"` and returns a present heading level `"1"`,
while the spec's pattern `H` + single digit 1–6 does not match `"H10"`;
the claimed equivalence of the two conditions is therefore false. -/
theorem c3_counterexample :
    normalizeStdName "H10" = some (Role.HEADING, some "1") ∧ specHPattern "H10" = false := by
  refine ⟨by decide, by decide⟩

/-- C3 (amended): `normalizeStdName` returns `(HEADING, present level)`
via its first rule exactly when the name is non-empty and falls
lexicographically in the closed range `["H1", "H6"]` (a strict superset
of the pattern `H` + single digit 1–6, e.g. it also accepts `"H10"`);
for every such name the returned level is the character at index 1, and
the check takes priority over the table lookup. -/
theorem c3_heading_range (s : String) :
    ((∃ lvl, normalizeStdName s = some (Role.HEADING, some lvl)) ↔
      (s ≠ "" ∧ strLE "H1" s = true ∧ strLE s "H6" = true)) ∧
    ((s ≠ "" ∧ strLE "H1" s = true ∧ strLE s "H6" = true) →
      normalizeStdName s = some (Role.HEADING, some (charAt1 s))) := by
  constructor
  · constructor
    · rintro ⟨lvl, hl⟩
      by_contra hneg
      simp only [normalizeStdName, if_neg hneg] at hl
      cases h : stdNamesToRoles.lookup s with
      | none => rw [h] at hl; exact Option.noConfusion hl
      | some r => rw [h] at hl; simp at hl
    · intro h
      exact ⟨charAt1 s, by simp only [normalizeStdName, if_pos h]⟩
  · intro h
    simp only [normalizeStdName, if_pos h]

/-- C3 witness: the amended rule applied at `"H5"`. -/
theorem c3_heading_range_witness :
    normalizeStdName "H5" = some (Role.HEADING, some (charAt1 "H5")) ∧ charAt1 "H5" = "5" :=
  ⟨(c3_heading_range "H5").2 (by decide), by decide⟩

/-- C4: when the vendor attribute `MSFT_MathML` under namespace
`MSFT_Office` is present and non-empty, `_get_mathMl` returns its value
verbatim with no further processing, regardless of the node's children. -/
theorem c4_vendor_attribute (n : PDDomNode)
    (h : n.GetAttribute "MSFT_MathML" "MSFT_Office" ≠ "") :
    getMathMl (some n) = some (n.GetAttribute "MSFT_MathML" "MSFT_Office") := by
  simp [getMathMl, h]

/-- C4 witness: a node carrying both the vendor attribute and a
"math"-tagged child returns the vendor attribute's literal value,
ignoring the child subtree. -/
theorem c4_vendor_attribute_witness :
    getMathMl (some (.mk "Formula" "" ""
        [(("MSFT_MathML", "MSFT_Office"), "<math><mi>v</mi></math>")]
        [some (.mk "math" "" "w" [] [])])) =
      some "<math><mi>v</mi></math>" := by
  rw [c4_vendor_attribute _ (by decide)]
  decide

/-- C5: with no non-empty vendor attribute, no "math"-tagged resolvable
child, and a raw value not starting with `<math`, `_get_mathMl` wraps
the escaped raw value as `<math><mtext>ESCAPED</mtext></math>`. -/
theorem c5_alt_text_fallback (n : PDDomNode)
    (h1 : n.GetAttribute "MSFT_MathML" "MSFT_Office" = "")
    (h2 : ∀ c : PDDomNode, some c ∈ n.children → c.tag ≠ "math")
    (h3 : strStartsWith n.value "<math" = false) :
    getMathMl (some n) = some ("<math><mtext>" ++ htmlEscape n.value ++ "</mtext></math>") := by
  rw [getMathMl_tier3 n h1 h2]
  simp [fallbackValue, h3]

/-- C5 witness: raw value `a < b` yields
`<math><mtext>a &lt; b</mtext></math>`, and an empty raw value yields
the empty-alt-text-wrapped form, never an error. -/
theorem c5_alt_text_fallback_witness :
    getMathMl (some (.mk "Formula" "" "a < b" [] [])) =
      some "<math><mtext>a &lt; b</mtext></math>" ∧
    getMathMl (some (.mk "Formula" "" "" [] [])) =
      some "<math><mtext></mtext></math>" := by
  constructor
  · rw [c5_alt_text_fallback _ (by decide) (by intro c hc; simp [PDDomNode.children] at hc) (by decide)]
    decide
  · rw [c5_alt_text_fallback _ (by decide) (by intro c hc; simp [PDDomNode.children] at hc) (by decide)]
    decide

/-- C6: when tiers 1 and 2 fail and the raw value starts with `<math`,
`_get_mathMl` returns the raw value with the literal substring
`xmlns:mml="http://www.w3.org/1998/Math/MathML"` stripped and no other
change. -/
theorem c6_namespace_strip (n : PDDomNode)
    (h1 : n.GetAttribute "MSFT_MathML" "MSFT_Office" = "")
    (h2 : ∀ c : PDDomNode, some c ∈ n.children → c.tag ≠ "math")
    (h3 : strStartsWith n.value "<math" = true) :
    getMathMl (some n) = some (strReplace n.value mathMlNamespaceDecl "") := by
  rw [getMathMl_tier3 n h1 h2]
  simp [fallbackValue, h3]

/-- C6 witness: the §8 example input produces the same string with the
xmlns:mml declaration substring removed. -/
theorem c6_namespace_strip_witness :
    getMathMl (some (.mk "Formula" ""
        "<math xmlns:mml=\"http://www.w3.org/1998/Math/MathML\"><mi>x</mi></math>" [] [])) =
      some "<math ><mi>x</mi></math>" := by
  rw [c6_namespace_strip _ (by decide) (by intro c hc; simp [PDDomNode.children] at hc) (by decide)]
  decide

/-- C7: every entry of the fixed table maps to the listed role with an
absent heading level (including `HEADING` with no level for bare `"H"`
and `MATH` for `"Formula"`), and every name absent from the table and
outside the code's H1–H6 range (including the empty string) yields the
`LookupError` outcome, modelled as `none`, without crashing. -/
theorem c7_table_lookup :
    (∀ p ∈ stdNamesToRoles, normalizeStdName p.1 = some (p.2, none)) ∧
    normalizeStdName "H" = some (Role.HEADING, none) ∧
    normalizeStdName "Formula" = some (Role.MATH, none) ∧
    normalizeStdName "" = none ∧
    (∀ s, stdNamesToRoles.lookup s = none →
      ¬(s ≠ "" ∧ strLE "H1" s = true ∧ strLE s "H6" = true) → normalizeStdName s = none) := by
  refine ⟨by decide, by decide, by decide, by decide, ?_⟩
  intro s h1 h2
  simp only [normalizeStdName, if_neg h2]
  rw [h1]

/-- C7 witness: the table rule applied at `("Sect", SECTION)` and the
fallthrough rule applied at `"unknown-tag"`. -/
theorem c7_table_lookup_witness :
    normalizeStdName "Sect" = some (Role.SECTION, none) ∧
    normalizeStdName "unknown-tag" = none :=
  ⟨c7_table_lookup.1 ("Sect", Role.SECTION) (by decide),
   c7_table_lookup.2.2.2.2 "unknown-tag" (by decide) (by decide)⟩

/-- C8: in tier 2, `_get_mathMl` scans the direct children in index
order, treats children that fail to resolve as elements as absent, and
returns `_getNodeMathMl` of the first child tagged "math"; everything
after that first match, including later "math"-tagged children, is never
used. -/
theorem c8_first_math_child (n : PDDomNode) (pre post : List (Option PDDomNode)) (c : PDDomNode)
    (hattr : n.GetAttribute "MSFT_MathML" "MSFT_Office" = "")
    (hch : n.children = pre ++ some c :: post)
    (hc : c.tag = "math")
    (hpre : ∀ d : PDDomNode, some d ∈ pre → d.tag ≠ "math") :
    getMathMl (some n) = some (getNodeMathMl c) := by
  have hf : findFirstMath n.children = some c := by
    rw [hch]
    exact findFirstMath_first pre post c hc hpre
  simp [getMathMl, hattr, hf]

/-- C8 witness: a failing child and a non-math child are skipped, the
first "math"-tagged child is rendered, and a later "math"-tagged child
is ignored. -/
theorem c8_first_math_child_witness :
    getMathMl (some (.mk "Formula" "" "v" []
        [none, some (.mk "mrow" "" "" [] []),
         some (.mk "math" "" "first" [] []),
         some (.mk "math" "" "second" [] [])])) =
      some "<math>first</math>" := by
  rw [c8_first_math_child _ [none, some (.mk "mrow" "" "" [] [])]
      [some (.mk "math" "" "second" [] [])] (.mk "math" "" "first" [] [])
      (by decide) (by rfl) (by decide) ?_]
  · decide
  · intro d hd
    simp only [PDDomNode.children, List.mem_cons, List.not_mem_nil, or_false,
      Option.some.injEq] at hd
    rcases hd with hd | hd
    · exact Option.noConfusion hd
    · subst hd
      decide

/-- C9: the tier-3 escaping is Python `html.escape` with default
quoting, so beyond `&`, `<`, `>` it also converts double quote to
`&quot;` and single quote to `&#x27;`. -/
theorem c9_quote_escaping (n : PDDomNode)
    (h1 : n.GetAttribute "MSFT_MathML" "MSFT_Office" = "")
    (h2 : ∀ c : PDDomNode, some c ∈ n.children → c.tag ≠ "math")
    (h3 : strStartsWith n.value "<math" = false) :
    getMathMl (some n) = some ("<math><mtext>" ++ htmlEscape n.value ++ "</mtext></math>") ∧
    htmlEscape "\"" = "&quot;" ∧
    htmlEscape (String.singleton (Char.ofNat 39)) = "&#x27;" := by
  refine ⟨?_, by decide, by decide⟩
  rw [getMathMl_tier3 n h1 h2]
  simp [fallbackValue, h3]

/-- C9 witness: raw value `a"b` produces
`<math><mtext>a&quot;b</mtext></math>`. -/
theorem c9_quote_escaping_witness :
    getMathMl (some (.mk "Formula" "" "a\"b" [] [])) =
      some "<math><mtext>a&quot;b</mtext></math>" := by
  have h := (c9_quote_escaping (.mk "Formula" "" "a\"b" [] [])
    (by decide) (by intro c hc; simp [PDDomNode.children] at hc) (by decide)).1
  rw [h]
  decide

/-- C10: the tier-2 test compares the child's tag with "math" by exact,
case-sensitive string equality: whenever no resolvable child has tag
exactly "math" (so children tagged "Math", "MATH", or "math" with
whitespace do not match), reconstruction falls through to the tier-3
raw-value fallback. -/
theorem c10_case_sensitive_match (n : PDDomNode)
    (hattr : n.GetAttribute "MSFT_MathML" "MSFT_Office" = "")
    (hch : ∀ c : PDDomNode, some c ∈ n.children → c.tag ≠ "math") :
    getMathMl (some n) = some (fallbackValue n.value) :=
  getMathMl_tier3 n hattr hch

/-- C10 witness: children tagged "Math", "MATH" and " math " are not
matched and the raw value is wrapped as alt text. -/
theorem c10_case_sensitive_match_witness :
    getMathMl (some (.mk "Formula" "" "alt" []
        [some (.mk "Math" "" "" [] []), some (.mk "MATH" "" "" [] []),
         some (.mk " math " "" "" [] [])])) =
      some "<math><mtext>alt</mtext></math>" := by
  rw [c10_case_sensitive_match _ (by decide) ?_]
  · decide
  · intro c hc
    simp only [PDDomNode.children, List.mem_cons, List.not_mem_nil, or_false,
      Option.some.injEq] at hc
    rcases hc with hc | hc | hc <;> subst hc <;> decide

end AdobeAcrobat
